import Mathlib

/-!
Verification model of the compression module of fheroes2,
translated from src/engine/zzlib.cpp.

Conventions of the embedding:
- Byte buffers are lists of naturals (a null pointer and an empty buffer
  both cause the same early return in the source, so both are modelled by
  the empty list).
- On the target LP64 platform `uLong` and `size_t` are both 64-bit
  unsigned, so the truncation checks after the `static_cast<uLong>` calls
  in the source (lines 46-50, 68-72, 86-90, 109-113, 117-121) can never
  fire; the model therefore elides them.
- `res.max_size()` of the destination vector is carried explicitly as the
  `maxSize` parameter.
-/

/-- Modelled from the spec: the external compression library (zlib), which is
not part of the repository. `comp` is the deterministic compressed image of a
buffer, `decomp` is the decompression relation as a function (`none` on data
that is not a valid compressed stream), and `bound` is the worst-case
compressed-size estimate (`compressBound`). The contract fields record the
library guarantees the module relies on: decompressing a compressed buffer
gives back the original, compressed output fits inside the estimated bound,
and a nonempty buffer never compresses to an empty one (a zlib stream always
carries a header and a checksum). -/
structure Codec where
  comp : List Nat → List Nat
  decomp : List Nat → Option (List Nat)
  bound : Nat → Nat
  comp_decomp : ∀ b : List Nat, b ≠ [] → decomp (comp b) = some b
  comp_le_bound : ∀ b : List Nat, b ≠ [] → (comp b).length ≤ bound b.length
  comp_ne_nil : ∀ b : List Nat, b ≠ [] → comp b ≠ []

/-- Return codes of the library calls, restricted to the three cases the
module distinguishes: `Z_OK` (with the produced bytes), `Z_BUF_ERROR`, and
any other non-success code. -/
inductive ZRet where
  | ok (out : List Nat)
  | bufErr
  | dataErr

/-- Modelled from the spec: a call `uncompress(dest, &destLen, src, srcLen)`
with a destination buffer of capacity `cap`. It fails with a data error on an
invalid stream, reports a too-small buffer when the true decompressed size
exceeds the capacity, and otherwise succeeds returning the exact decompressed
bytes. -/
def Codec.uncompressCall (c : Codec) (src : List Nat) (cap : Nat) : ZRet :=
  match c.decomp src with
  | none => ZRet.dataErr
  | some raw => if raw.length ≤ cap then ZRet.ok raw else ZRet.bufErr

/-- Modelled from the spec: a call `compress(dest, &destLen, src, srcLen)`
with a destination buffer of capacity `cap`. -/
def Codec.compressCall (c : Codec) (src : List Nat) (cap : Nat) : ZRet :=
  if (c.comp src).length ≤ cap then ZRet.ok (c.comp src) else ZRet.bufErr

/-- Little-endian two-byte encoding used by the stream model; it only
depends on the argument modulo 2^16, mirroring a `uint16_t` argument. -/
def enc16 (n : Nat) : List Nat := [n % 256, n / 256 % 256]

/-- Little-endian four-byte encoding used by the stream model; it only
depends on the argument modulo 2^32, mirroring a `uint32_t` argument. -/
def enc32 (n : Nat) : List Nat := enc16 n ++ enc16 (n / 2 ^ 16)

/-- Modelled from the spec: the input side of the binary stream abstraction
(`IStreamBase` in the source headers, which are not part of the fragment).
The stream is the sequence of bytes still to be read. -/
structure IStream where
  data : List Nat

/-- Modelled from the spec: a one-byte read; past the end of the stream it
yields 0.  -/
def IStream.get8 (s : IStream) : Nat × IStream :=
  match s.data with
  | [] => (0, ⟨[]⟩)
  | b :: rest => (b, ⟨rest⟩)

/-- Modelled from the spec: a 16-bit read, little-endian (the spec only
requires that reads and writes use one consistent byte order). -/
def IStream.get16 (s : IStream) : Nat × IStream :=
  let p0 := s.get8
  let p1 := p0.2.get8
  (p0.1 + 256 * p1.1, p1.2)

/-- Modelled from the spec: a 32-bit read, little-endian. -/
def IStream.get32 (s : IStream) : Nat × IStream :=
  let p0 := s.get16
  let p1 := p0.2.get16
  (p0.1 + 2 ^ 16 * p1.1, p1.2)

/-- Modelled from the spec: skip `n` bytes. -/
def IStream.skip (s : IStream) (n : Nat) : IStream := ⟨s.data.drop n⟩

/-- Modelled from the spec: read `n` raw bytes (fewer when the stream is
shorter). -/
def IStream.getRaw (s : IStream) (n : Nat) : List Nat × IStream :=
  (s.data.take n, ⟨s.data.drop n⟩)

/-- Modelled from the spec: the output side of the binary stream abstraction
(`OStreamBase`). `out` is everything written so far and `failed` is the fault
flag queried by `fail()`; the modelled writes themselves are fault-free and
preserve the flag. -/
structure OStream where
  out : List Nat
  failed : Bool

/-- Modelled from the spec: append raw bytes. -/
def OStream.putRaw (s : OStream) (b : List Nat) : OStream := ⟨s.out ++ b, s.failed⟩

/-- Modelled from the spec: write a 16-bit value, little-endian; `enc16`
already truncates to 16 bits, mirroring the `uint16_t` parameter. -/
def OStream.put16 (s : OStream) (n : Nat) : OStream := s.putRaw (enc16 n)

/-- Modelled from the spec: write a 32-bit value, little-endian; `enc32`
already truncates to 32 bits, mirroring the `uint32_t` parameter. -/
def OStream.put32 (s : OStream) (n : Nat) : OStream := s.putRaw (enc32 n)

/-- Modelled from the spec: the pixel image abstraction (`fheroes2::Image`).
A default-constructed image is empty and has its transform layer enabled;
`_disableTransformLayer` drops the transform plane. -/
structure Image where
  width : Int
  height : Int
  pixels : List Nat
  transform : List Nat
  transformEnabled : Bool

instance : Inhabited Image := ⟨⟨0, 0, [], [], true⟩⟩

namespace Compression

/-- Translation of the constant `FORMAT_VERSION_0` (line 37). -/
def FORMAT_VERSION_0 : Nat := 0

/-- Translation of the retry loop of `unzipData` (lines 74-91). `cap` is the
current size of the destination vector `res` and `maxSize` is
`res.max_size()`. On a buffer-too-small report the loop fails when the size
may no longer be doubled and otherwise doubles it and retries. The extra
branch on `cap = 0` is unreachable from `unzipData`, whose starting capacity
is always at least 1; it only makes the recursion well-founded in the model
(the source loop would not terminate there either, it would spin on a
zero-sized buffer). -/
def unzipLoop (c : Codec) (maxSize : Nat) (src : List Nat) (cap : Nat) : Option (List Nat) :=
  match c.uncompressCall src cap with
  | ZRet.ok out => some out
  | ZRet.dataErr => none
  | ZRet.bufErr =>
    if h1 : maxSize / 2 < cap then none
    else if h0 : cap = 0 then none
    else unzipLoop c maxSize src (cap * 2)
termination_by maxSize + 1 - cap
decreasing_by omega

/-- Fuel-indexed variant of `unzipLoop`, used to express that the retry loop
of `unzipData` terminates within a bounded number of iterations: `none` means
the fuel ran out before the loop exited. -/
def unzipLoopFuel (c : Codec) (maxSize : Nat) (src : List Nat) :
    Nat → Nat → Option (Option (List Nat))
  | 0, _ => none
  | fuel + 1, cap =>
    match c.uncompressCall src cap with
    | ZRet.ok out => some (some out)
    | ZRet.dataErr => some none
    | ZRet.bufErr =>
      if maxSize / 2 < cap then some none
      else if cap = 0 then some none
      else unzipLoopFuel c maxSize src fuel (cap * 2)

/-- Byte layout of a framed block, section 6 of the spec: 32-bit raw size,
32-bit compressed size, 16-bit format version, 16-bit reserved field, then
the payload bytes. Used to state properties of the framing reader. -/
def frameBytes (rawSize zipSize version reserved : Nat) (payload : List Nat) : List Nat :=
  enc32 rawSize ++ enc32 zipSize ++ enc16 version ++ enc16 reserved ++ payload

/-- Translation of `Compression::unzipData` (lines 40-101). A null source
pointer and a zero source size are both modelled by the empty list. When no
original size is known (`realSize = 0`) the starting capacity is seven times
the source size, falling back to the source size itself when the
multiplication would exceed `maxSize`; on success the buffer is truncated to
the exact decompressed length (the loop already returns exactly those
bytes). -/
def unzipData (c : Codec) (maxSize : Nat) (src : List Nat) (realSize : Nat) : List Nat :=
  if src = [] then []
  else
    let cap0 :=
      if realSize = 0 then
        if maxSize / 7 < src.length then src.length else src.length * 7
      else realSize
    match unzipLoop c maxSize src cap0 with
    | some out => out
    | none => []

/-- Translation of `Compression::zipData` (lines 103-133): one compression
call into a buffer of the worst-case size `compressBound(srcSize)`, truncated
to the produced length on success, empty on any failure. -/
def zipData (c : Codec) (src : List Nat) : List Nat :=
  if src = [] then []
  else
    match c.compressCall src (c.bound src.length) with
    | ZRet.ok out => out
    | ZRet.bufErr => []
    | ZRet.dataErr => []

/-- Translation of `Compression::unzipStream` (lines 135-159): read the
framed block header, reject a zero compressed size or an unknown format
version, skip the two reserved bytes, read and decompress the payload with
the stored raw size as the known original size, reject a decompressed length
that differs from the stored raw size, and otherwise append the bytes to the
output stream. -/
def unzipStream (c : Codec) (maxSize : Nat) (ins : IStream) (outs : OStream) : Bool × OStream :=
  let p1 := ins.get32
  let rawSize := p1.1
  let p2 := p1.2.get32
  let zipSize := p2.1
  if zipSize = 0 then (false, outs)
  else
    let p3 := p2.2.get16
    if p3.1 ≠ FORMAT_VERSION_0 then (false, outs)
    else
      let s4 := p3.2.skip 2
      let p5 := s4.getRaw zipSize
      let raw := unzipData c maxSize p5.1 rawSize
      if raw.length ≠ rawSize then (false, outs)
      else
        let outs2 := outs.putRaw raw
        (!outs2.failed, outs2)

/-- Translation of `Compression::zipStreamBuf` (lines 161-175): compress the
whole input buffer, fail when the compressed result is empty, otherwise write
the header fields and the compressed bytes and report the fault state of the
output stream. -/
def zipStreamBuf (c : Codec) (input : List Nat) (outs : OStream) : Bool × OStream :=
  let zip := zipData c input
  if zip = [] then (false, outs)
  else
    let o1 := outs.put32 input.length
    let o2 := o1.put32 zip.length
    let o3 := o2.put16 FORMAT_VERSION_0
    let o4 := o3.put16 0
    let o5 := o4.putRaw zip
    (!o5.failed, o5)

/-- Translation of `Compression::CreateImageFromZlib` (lines 177-205). -/
def CreateImageFromZlib (c : Codec) (maxSize : Nat) (width height : Int)
    (imageData : List Nat) (doubleLayer : Bool) : Image :=
  if imageData = [] ∨ width ≤ 0 ∨ height ≤ 0 then default
  else
    let u := unzipData c maxSize imageData 0
    if doubleLayer ∧ u.length % 2 = 1 then default
    else
      let planeSize := if doubleLayer then u.length / 2 else u.length
      if width.toNat * height.toNat ≠ planeSize then default
      else
        { width := width, height := height,
          pixels := u.take planeSize,
          transform := if doubleLayer then u.drop planeSize else [],
          transformEnabled := doubleLayer }

end Compression

/-- Concrete instance of the library contract: the identity codec, used to
evaluate the model on closed inputs. -/
def idCodec : Codec where
  comp b := b
  decomp b := some b
  bound n := n
  comp_decomp _ _ := rfl
  comp_le_bound _ _ := Nat.le_refl _
  comp_ne_nil _ h := h

/-- Concrete instance of the library contract with a high expansion ratio:
a compressed stream starting with byte 1 decompresses to a buffer eight
times larger, which exercises the buffer-growth loop past its initial
guess. -/
def expandCodec : Codec where
  comp b := 0 :: b
  decomp z :=
    match z with
    | 0 :: rest => some rest
    | 1 :: rest => some (List.replicate (8 * (rest.length + 1)) 0)
    | _ => none
  bound n := n + 1
  comp_decomp _ _ := rfl
  comp_le_bound b _ := by simp
  comp_ne_nil _ _ := by simp

/-- Concrete buffer of length 2^32, the smallest length at which the 32-bit
size fields of the framed block truncate. Kept behind a name so that no
tactic ever tries to evaluate the list itself. -/
def bigBuf : List Nat := List.replicate (2 ^ 32) 0

/-! Helper lemmas shared by the claim theorems. -/

lemma zipData_eq_comp (c : Codec) (B : List Nat) (hB : B ≠ []) :
    Compression.zipData c B = c.comp B := by
  unfold Compression.zipData Codec.compressCall
  rw [if_neg hB, if_pos (c.comp_le_bound B hB)]

lemma unzipLoop_of_le (c : Codec) (maxSize : Nat) (src raw : List Nat) (cap : Nat)
    (hd : c.decomp src = some raw) (hle : raw.length ≤ cap) :
    Compression.unzipLoop c maxSize src cap = some raw := by
  rw [Compression.unzipLoop]
  unfold Codec.uncompressCall
  rw [hd]
  simp [hle]

lemma unzipLoop_of_half (c : Codec) (maxSize : Nat) (src raw : List Nat) :
    ∀ n cap, 1 ≤ cap → maxSize + 1 ≤ cap + n → c.decomp src = some raw →
      2 * raw.length ≤ maxSize → Compression.unzipLoop c maxSize src cap = some raw := by
  intro n
  induction n with
  | zero =>
    intro cap h1 hn hd hh
    exact unzipLoop_of_le c maxSize src raw cap hd (by omega)
  | succ n ih =>
    intro cap h1 hn hd hh
    by_cases hle : raw.length ≤ cap
    · exact unzipLoop_of_le c maxSize src raw cap hd hle
    · rw [Compression.unzipLoop]
      unfold Codec.uncompressCall
      rw [hd]
      have hg1 : ¬ maxSize / 2 < cap := by omega
      have hg0 : ¬ cap = 0 := by omega
      simp only [hle, if_false, hg1, hg0, dite_false, ite_false]
      exact ih (cap * 2) (by omega) (by omega) hd hh

lemma unzipData_guess (c : Codec) (maxSize : Nat) (src raw : List Nat)
    (hs : src ≠ []) (hd : c.decomp src = some raw) (hmax : 2 * raw.length ≤ maxSize) :
    Compression.unzipData c maxSize src 0 = raw := by
  have h1 : 1 ≤ src.length := List.length_pos.mpr hs
  unfold Compression.unzipData
  rw [if_neg hs]
  have hcap : 1 ≤ (if maxSize / 7 < src.length then src.length else src.length * 7) := by
    split <;> omega
  show (match Compression.unzipLoop c maxSize src
      (if maxSize / 7 < src.length then src.length else src.length * 7) with
    | some out => out
    | none => []) = raw
  rw [unzipLoop_of_half c maxSize src raw (maxSize + 1) _ hcap (by omega) hd hmax]

lemma unzipData_known (c : Codec) (maxSize : Nat) (src raw : List Nat) (realSize : Nat)
    (hs : src ≠ []) (hd : c.decomp src = some raw) (h1 : 1 ≤ realSize)
    (hle : raw.length ≤ realSize) :
    Compression.unzipData c maxSize src realSize = raw := by
  unfold Compression.unzipData
  rw [if_neg hs]
  have hne : realSize ≠ 0 := by omega
  simp only [hne, ite_false, if_false]
  rw [unzipLoop_of_le c maxSize src raw realSize hd hle]

lemma get16_enc16 (n : Nat) (r : List Nat) :
    IStream.get16 ⟨enc16 n ++ r⟩ = (n % 2 ^ 16, ⟨r⟩) := by
  unfold IStream.get16 IStream.get8 enc16
  simp only [List.cons_append, List.nil_append]
  refine Prod.ext ?_ rfl
  show n % 256 + 256 * (n / 256 % 256) = n % 2 ^ 16
  omega

lemma get32_enc32 (n : Nat) (r : List Nat) :
    IStream.get32 ⟨enc32 n ++ r⟩ = (n % 2 ^ 32, ⟨r⟩) := by
  unfold IStream.get32 enc32
  rw [List.append_assoc]
  simp only [get16_enc16]
  refine Prod.ext ?_ rfl
  show n % 2 ^ 16 + 2 ^ 16 * (n / 2 ^ 16 % 2 ^ 16) = n % 2 ^ 32
  omega

lemma skip2_enc16 (n : Nat) (r : List Nat) :
    IStream.skip ⟨enc16 n ++ r⟩ 2 = ⟨r⟩ := rfl

lemma zipStreamBuf_spec (c : Codec) (B : List Nat) (o : OStream)
    (h : Compression.zipData c B ≠ []) :
    Compression.zipStreamBuf c B o =
      (!o.failed,
        ⟨o.out ++ enc32 B.length ++ enc32 (Compression.zipData c B).length ++
            enc16 0 ++ enc16 0 ++ Compression.zipData c B, o.failed⟩) := by
  unfold Compression.zipStreamBuf
  rw [if_neg h]
  simp [OStream.put32, OStream.put16, OStream.putRaw, Compression.FORMAT_VERSION_0,
    List.append_assoc]

/-! Claim theorems. -/

/-- C1: for every nonempty byte buffer B, decompressing the result of
compressing B with an unknown original size yields exactly B, for every
library satisfying the contract; the size hypothesis reflects that the
doubled working buffer stays within the maximum container size, which every
buffer a real vector can hold satisfies. -/
theorem unzip_zip_roundtrip (c : Codec) (maxSize : Nat) (B : List Nat)
    (hB : B ≠ []) (hmax : 2 * B.length ≤ maxSize) :
    Compression.unzipData c maxSize (Compression.zipData c B) 0 = B := by
  rw [zipData_eq_comp c B hB]
  exact unzipData_guess c maxSize (c.comp B) B (c.comp_ne_nil B hB) (c.comp_decomp B hB) hmax

theorem unzip_zip_roundtrip_witness :
    (([1, 2, 3] : List Nat) ≠ [] ∧ 2 * ([1, 2, 3] : List Nat).length ≤ 100) ∧
      Compression.unzipData idCodec 100 (Compression.zipData idCodec [1, 2, 3]) 0 = [1, 2, 3] :=
  ⟨⟨by decide, by decide⟩, unzip_zip_roundtrip idCodec 100 [1, 2, 3] (by decide) (by decide)⟩

/-- C3: on a valid compressed input whose true decompressed size exceeds
seven times the source size, unzipData with an unknown original size still
succeeds and returns the exact decompressed bytes, the doubling loop growing
the first guess as often as needed. -/
theorem unzip_growth_correct (c : Codec) (maxSize : Nat) (z raw : List Nat)
    (hz : z ≠ []) (hd : c.decomp z = some raw) (_hbig : 7 * z.length < raw.length)
    (hmax : 2 * raw.length ≤ maxSize) :
    Compression.unzipData c maxSize z 0 = raw :=
  unzipData_guess c maxSize z raw hz hd hmax

theorem unzip_growth_correct_witness :
    (([1] : List Nat) ≠ [] ∧ expandCodec.decomp [1] = some (List.replicate 8 0) ∧
        7 * ([1] : List Nat).length < (List.replicate 8 (0 : Nat)).length ∧
        2 * (List.replicate 8 (0 : Nat)).length ≤ 1000) ∧
      Compression.unzipData expandCodec 1000 [1] 0 = List.replicate 8 0 :=
  ⟨⟨by decide, by decide, by decide, by decide⟩,
    unzip_growth_correct expandCodec 1000 [1] (List.replicate 8 0)
      (by decide) (by decide) (by decide) (by decide)⟩

/-- C9: a null or empty source buffer makes both zipData and unzipData
return the empty result; the statement holds for every codec, so neither
function consults the library on this path. -/
theorem degenerate_inputs_empty (c : Codec) (maxSize realSize : Nat) :
    Compression.unzipData c maxSize [] realSize = [] ∧ Compression.zipData c [] = [] :=
  ⟨rfl, rfl⟩

/-- C8: the buffer-growth retry loop of unzipData terminates for every
input: starting from any positive capacity it reaches its exit (library
success, a non-recoverable library error, or the overflow guard on doubling)
within maxSize + 2 - cap iterations, so the fuel-indexed loop agrees with it
whenever it is given at least that much fuel. -/
theorem unzipLoop_terminates_bounded (c : Codec) (maxSize : Nat) (src : List Nat) :
    ∀ fuel cap, 1 ≤ cap → 1 ≤ fuel → maxSize + 2 ≤ fuel + cap →
      Compression.unzipLoopFuel c maxSize src fuel cap =
        some (Compression.unzipLoop c maxSize src cap) := by
  intro fuel
  induction fuel with
  | zero => intro cap h1 hf hn; omega
  | succ fuel ih =>
    intro cap h1 hf hn
    rw [Compression.unzipLoop]
    unfold Compression.unzipLoopFuel
    cases hm : c.uncompressCall src cap with
    | ok out => simp [hm]
    | dataErr => simp [hm]
    | bufErr =>
      simp only [hm]
      by_cases hg : maxSize / 2 < cap
      · simp [hg]
      · have hc0 : ¬ cap = 0 := by omega
        simp only [hg, hc0, if_false, ite_false, dite_false]
        exact ih (cap * 2) (by omega) (by omega) (by omega)

theorem unzipLoop_terminates_bounded_witness :
    (1 ≤ (1 : Nat) ∧ 1 ≤ (12 : Nat) ∧ (10 : Nat) + 2 ≤ 12 + 1) ∧
      Compression.unzipLoopFuel idCodec 10 [5] 12 1 =
        some (Compression.unzipLoop idCodec 10 [5] 1) :=
  ⟨⟨by decide, by decide, by decide⟩,
    unzipLoop_terminates_bounded idCodec 10 [5] 12 1 (by decide) (by decide) (by decide)⟩

/-- C7: on success zipStreamBuf appends to the output stream, in order, the
32-bit original length, the 32-bit compressed length, the 16-bit format
version 0, a 16-bit zero reserved field, and the compressed bytes; it
returns false exactly when the output stream reports a fault after the
writes (the modelled writes preserve the fault flag). -/
theorem zipStreamBuf_layout (c : Codec) (B : List Nat) (o : OStream)
    (h : Compression.zipData c B ≠ []) :
    Compression.zipStreamBuf c B o =
      (!o.failed,
        ⟨o.out ++ enc32 B.length ++ enc32 (Compression.zipData c B).length ++
            enc16 0 ++ enc16 0 ++ Compression.zipData c B, o.failed⟩) :=
  zipStreamBuf_spec c B o h

theorem zipStreamBuf_layout_witness :
    Compression.zipData idCodec [9] ≠ [] ∧
      Compression.zipStreamBuf idCodec [9] ⟨[], false⟩ =
        (!(false : Bool),
          ⟨([] : List Nat) ++ enc32 ([9] : List Nat).length ++
              enc32 (Compression.zipData idCodec [9]).length ++ enc16 0 ++ enc16 0 ++
              Compression.zipData idCodec [9], false⟩) :=
  ⟨by decide, zipStreamBuf_layout idCodec [9] ⟨[], false⟩ (by decide)⟩

/-- C10: whenever compression of the input buffer yields an empty result,
zipStreamBuf returns false and leaves the output stream untouched: no header
fields and no payload bytes are written. -/
theorem zipStreamBuf_empty_compress (c : Codec) (B : List Nat) (o : OStream)
    (h : Compression.zipData c B = []) :
    Compression.zipStreamBuf c B o = (false, o) := by
  unfold Compression.zipStreamBuf
  rw [if_pos h]

theorem zipStreamBuf_empty_compress_witness :
    Compression.zipData idCodec [] = [] ∧
      Compression.zipStreamBuf idCodec [] ⟨[7], true⟩ = (false, ⟨[7], true⟩) :=
  ⟨by decide, zipStreamBuf_empty_compress idCodec [] ⟨[7], true⟩ (by decide)⟩

/-- C4: unzipStream rejects a framed block whose compressed-size field is
zero, whose format-version field is nonzero, or whose payload decompresses
to a length different from the stored raw size. -/
theorem unzipStream_rejects_bad_frames (c : Codec) (maxSize rS zS v rsv : Nat)
    (payload : List Nat) (o : OStream)
    (hrS : rS < 2 ^ 32) (hzS : zS < 2 ^ 32) (hv : v < 2 ^ 16)
    (hrej : zS = 0 ∨ v ≠ 0 ∨
        (Compression.unzipData c maxSize (payload.take zS) rS).length ≠ rS) :
    (Compression.unzipStream c maxSize ⟨Compression.frameBytes rS zS v rsv payload⟩ o).1 =
      false := by
  unfold Compression.unzipStream
  simp only [Compression.frameBytes, List.append_assoc]
  simp only [get32_enc32, Nat.mod_eq_of_lt hrS, Nat.mod_eq_of_lt hzS]
  by_cases h0 : zS = 0
  · simp [h0]
  · simp only [h0, if_false, ite_false]
    simp only [get16_enc16, Nat.mod_eq_of_lt hv]
    by_cases hv0 : v ≠ Compression.FORMAT_VERSION_0
    · simp [hv0]
    · have hveq : v = 0 := by
        unfold Compression.FORMAT_VERSION_0 at hv0
        omega
      rcases hrej with h | h | h
      · exact absurd h h0
      · exact absurd hveq h
      · simp only [hv0, if_false, ite_false]
        simp only [skip2_enc16, IStream.getRaw]
        simp [h]

theorem unzipStream_rejects_bad_frames_witness :
    ((0 : Nat) < 2 ^ 32 ∧ (0 : Nat) < 2 ^ 16 ∧
        ((0 : Nat) = 0 ∨ (0 : Nat) ≠ 0 ∨
          (Compression.unzipData idCodec 100 (List.take 0 ([] : List Nat)) 0).length ≠ 0)) ∧
      (Compression.unzipStream idCodec 100 ⟨Compression.frameBytes 0 0 0 0 []⟩
          ⟨[], false⟩).1 = false :=
  ⟨⟨by decide, by decide, Or.inl rfl⟩,
    unzipStream_rejects_bad_frames idCodec 100 0 0 0 0 [] ⟨[], false⟩
      (by decide) (by decide) (by decide) (Or.inl rfl)⟩

/-- C2 counterexample: the claim quantifies over every nonempty buffer, but
the two size fields of the frame are written through a cast to 32 bits
(lines 168-169 of the source). At a buffer of length 2^32 the stored sizes
truncate to 0, so reading the frame back fails instead of reproducing the
buffer: with the identity codec the stored compressed size is 0 and
unzipStream rejects the block at its first check. -/
theorem framed_roundtrip_counterexample :
    (Compression.unzipStream idCodec (2 ^ 64)
        ⟨(Compression.zipStreamBuf idCodec bigBuf ⟨[], false⟩).2.out⟩
        ⟨[], false⟩).1 = false := by
  have hB : bigBuf ≠ [] := by
    unfold bigBuf
    intro h
    have h2 := congrArg List.length h
    rw [List.length_replicate] at h2
    exact absurd h2 (by norm_num)
  have hlen : bigBuf.length = 2 ^ 32 := by
    unfold bigBuf
    exact List.length_replicate _ _
  have hz : Compression.zipData idCodec bigBuf = bigBuf :=
    zipData_eq_comp idCodec bigBuf hB
  have hs := zipStreamBuf_spec idCodec bigBuf ⟨[], false⟩ (by rw [hz]; exact hB)
  rw [hs]
  show (Compression.unzipStream idCodec (2 ^ 64)
      ⟨[] ++ enc32 bigBuf.length ++ enc32 (Compression.zipData idCodec bigBuf).length ++
          enc16 0 ++ enc16 0 ++ Compression.zipData idCodec bigBuf⟩ ⟨[], false⟩).1 = false
  rw [hz, hlen]
  simp only [List.nil_append, List.append_assoc]
  unfold Compression.unzipStream
  simp only [get32_enc32]
  simp only [Nat.mod_self]
  rw [if_pos trivial]

/-- C2 (amended): for every nonempty byte buffer whose length and whose
compressed length both fit in 32 bits, writing it with zipStreamBuf to a
fresh fault-free stream and reading that stream back with unzipStream
succeeds on both sides and appends exactly the original buffer to the output
stream. The 32-bit bounds are forced by the counterexample: the frame stores
both sizes through casts to uint32_t. -/
theorem framed_roundtrip_amended (c : Codec) (maxSize : Nat) (B : List Nat)
    (hB : B ≠ []) (hBlen : B.length < 2 ^ 32)
    (hzlen : (Compression.zipData c B).length < 2 ^ 32) :
    (Compression.zipStreamBuf c B ⟨[], false⟩).1 = true ∧
      Compression.unzipStream c maxSize
          ⟨(Compression.zipStreamBuf c B ⟨[], false⟩).2.out⟩ ⟨[], false⟩ =
        (true, ⟨B, false⟩) := by
  have hzc : Compression.zipData c B = c.comp B := zipData_eq_comp c B hB
  have hzne : Compression.zipData c B ≠ [] := by
    rw [hzc]
    exact c.comp_ne_nil B hB
  have hs := zipStreamBuf_spec c B ⟨[], false⟩ hzne
  refine ⟨by rw [hs]; rfl, ?_⟩
  rw [hs]
  unfold Compression.unzipStream
  simp only [List.nil_append, List.append_assoc]
  simp only [get32_enc32, Nat.mod_eq_of_lt hBlen, Nat.mod_eq_of_lt hzlen]
  have hzlen0 : ¬ (Compression.zipData c B).length = 0 := fun hcon =>
    hzne (List.length_eq_zero.mp hcon)
  simp only [hzlen0, if_false, ite_false]
  simp only [get16_enc16]
  have hv : ¬ (0 % 2 ^ 16 ≠ Compression.FORMAT_VERSION_0) := by
    unfold Compression.FORMAT_VERSION_0
    omega
  simp only [hv, if_false, ite_false]
  simp only [skip2_enc16, IStream.getRaw, List.take_length, List.drop_length]
  have hu : Compression.unzipData c maxSize (Compression.zipData c B) B.length = B := by
    refine unzipData_known c maxSize (Compression.zipData c B) B B.length hzne ?_
      (List.length_pos.mpr hB) (Nat.le_refl _)
    rw [hzc]
    exact c.comp_decomp B hB
  rw [hu]
  simp [OStream.putRaw]

theorem framed_roundtrip_amended_witness :
    (([1, 2] : List Nat) ≠ [] ∧ ([1, 2] : List Nat).length < 2 ^ 32 ∧
        (Compression.zipData idCodec [1, 2]).length < 2 ^ 32) ∧
      (Compression.zipStreamBuf idCodec [1, 2] ⟨[], false⟩).1 = true ∧
        Compression.unzipStream idCodec 50
            ⟨(Compression.zipStreamBuf idCodec [1, 2] ⟨[], false⟩).2.out⟩ ⟨[], false⟩ =
          (true, ⟨[1, 2], false⟩) :=
  ⟨⟨by decide, by decide, by decide⟩,
    framed_roundtrip_amended idCodec 50 [1, 2] (by decide) (by decide) (by decide)⟩

/-- C5: decoding the compression of a buffer that holds one plane (or two
equal planes back to back) of the stated dimensions returns an image of
those dimensions whose color-index plane is the first plane and, in the
double-layer case, whose transform plane is the second plane; without a
second layer the transform plane is disabled. -/
theorem createImage_decodes (c : Codec) (maxSize : Nat) (w h : Int) (D : List Nat) (dl : Bool)
    (hD : D ≠ []) (hw : 0 < w) (hh : 0 < h) (hmax : 2 * D.length ≤ maxSize)
    (heven : dl = true → D.length % 2 = 0)
    (hsize : w.toNat * h.toNat = if dl then D.length / 2 else D.length) :
    Compression.CreateImageFromZlib c maxSize w h (Compression.zipData c D) dl =
      ⟨w, h, D.take (if dl then D.length / 2 else D.length),
        if dl then D.drop (D.length / 2) else [], dl⟩ := by
  have hzc : Compression.zipData c D = c.comp D := zipData_eq_comp c D hD
  have hzne : c.comp D ≠ [] := c.comp_ne_nil D hD
  have hu : Compression.unzipData c maxSize (c.comp D) 0 = D :=
    unzipData_guess c maxSize (c.comp D) D hzne (c.comp_decomp D hD) hmax
  unfold Compression.CreateImageFromZlib
  rw [hzc]
  have hcond : ¬(c.comp D = [] ∨ w ≤ 0 ∨ h ≤ 0) := by
    push_neg
    exact ⟨hzne, by omega, by omega⟩
  rw [if_neg hcond, hu]
  cases dl with
  | false => simp [hsize]
  | true =>
    have he := heven rfl
    simp [he, hsize]

theorem createImage_decodes_witness :
    (([1, 2, 3, 4, 5, 6, 7, 8] : List Nat) ≠ [] ∧ (0 : Int) < 2 ∧
        2 * ([1, 2, 3, 4, 5, 6, 7, 8] : List Nat).length ≤ 100 ∧
        ((true : Bool) = true → ([1, 2, 3, 4, 5, 6, 7, 8] : List Nat).length % 2 = 0) ∧
        (2 : Int).toNat * (2 : Int).toNat =
          (if (true : Bool) then ([1, 2, 3, 4, 5, 6, 7, 8] : List Nat).length / 2
            else ([1, 2, 3, 4, 5, 6, 7, 8] : List Nat).length)) ∧
      Compression.CreateImageFromZlib idCodec 100 2 2
          (Compression.zipData idCodec [1, 2, 3, 4, 5, 6, 7, 8]) true =
        ⟨2, 2,
          ([1, 2, 3, 4, 5, 6, 7, 8] : List Nat).take
            (if (true : Bool) then ([1, 2, 3, 4, 5, 6, 7, 8] : List Nat).length / 2
              else ([1, 2, 3, 4, 5, 6, 7, 8] : List Nat).length),
          if (true : Bool) then
            ([1, 2, 3, 4, 5, 6, 7, 8] : List Nat).drop
              (([1, 2, 3, 4, 5, 6, 7, 8] : List Nat).length / 2)
          else [], true⟩ :=
  ⟨⟨by decide, by decide, by decide, by decide, by decide⟩,
    createImage_decodes idCodec 100 2 2 [1, 2, 3, 4, 5, 6, 7, 8] true
      (by decide) (by decide) (by decide) (by decide) (by decide) (by decide)⟩

/-- C6: CreateImageFromZlib returns the default empty image, never a
partially filled one, on every rejection path: null or empty compressed
input, non-positive width or height, an odd decompressed length under a
double layer, or a plane size that does not match width times height. -/
theorem createImage_rejects_invalid (c : Codec) (maxSize : Nat) (w h : Int)
    (data : List Nat) (dl : Bool)
    (hrej : data = [] ∨ w ≤ 0 ∨ h ≤ 0 ∨
        (dl = true ∧ (Compression.unzipData c maxSize data 0).length % 2 = 1) ∨
        w.toNat * h.toNat ≠
          (if dl then (Compression.unzipData c maxSize data 0).length / 2
            else (Compression.unzipData c maxSize data 0).length)) :
    Compression.CreateImageFromZlib c maxSize w h data dl = default := by
  unfold Compression.CreateImageFromZlib
  by_cases h1 : data = [] ∨ w ≤ 0 ∨ h ≤ 0
  · rw [if_pos h1]
  · rw [if_neg h1]
    rcases hrej with hc | hc | hc | hc | hc
    · exact absurd (Or.inl hc) h1
    · exact absurd (Or.inr (Or.inl hc)) h1
    · exact absurd (Or.inr (Or.inr hc)) h1
    · rw [if_pos hc]
    · dsimp only
      by_cases hA : dl = true ∧ (Compression.unzipData c maxSize data 0).length % 2 = 1
      · rw [if_pos hA]
      · rw [if_neg hA, if_pos hc]

theorem createImage_rejects_invalid_witness :
    (([] : List Nat) = [] ∨ (2 : Int) ≤ 0 ∨ (2 : Int) ≤ 0 ∨
        ((false : Bool) = true ∧
          (Compression.unzipData idCodec 10 [] 0).length % 2 = 1) ∨
        (2 : Int).toNat * (2 : Int).toNat ≠
          (if (false : Bool) then (Compression.unzipData idCodec 10 [] 0).length / 2
            else (Compression.unzipData idCodec 10 [] 0).length)) ∧
      Compression.CreateImageFromZlib idCodec 10 2 2 [] false = default :=
  ⟨Or.inl rfl, createImage_rejects_invalid idCodec 10 2 2 [] false (Or.inl rfl)⟩
